import Mathlib

/-!
Shallow embedding of the block-compressed texture codec and mip-chain
assembly pipeline (crate `image_dds`): surface encoding, validation,
mip-level arithmetic, and the BC2 block synthesis.  Byte buffers are
modelled as `List Nat`, machine integers as `Nat` with explicit bounds
where overflow matters (the platform size limit is `2 ^ 64`), fallible
code returns `Except`/`Option`, and Rust panics (out-of-bounds indexing,
`unwrap` of `None`, slice range errors) are a distinguished `panic`
outcome.
-/

namespace ImageDds

/-- Encoding quality hint (`Quality` in the crate). -/
inductive Quality
  | fast
  | normal
  | slow
deriving DecidableEq

/-- The closed enumeration of supported texture formats (`ImageFormat`). -/
inductive ImageFormat
  | bc1Unorm
  | bc1Srgb
  | bc2Unorm
  | bc2Srgb
  | bc3Unorm
  | bc3Srgb
  | bc4Unorm
  | bc4Snorm
  | bc5Unorm
  | bc5Snorm
  | bc6Ufloat
  | bc6Sfloat
  | bc7Unorm
  | bc7Srgb
  | r8Unorm
  | r8g8b8a8Unorm
  | r8g8b8a8Srgb
  | r32g32b32a32Float
  | b8g8r8a8Unorm
  | b8g8r8a8Srgb
deriving DecidableEq

/-- Modelled from the spec: `ImageFormat::block_dimensions` lives outside
`src/`; per the FormatDescriptor contract it is a static table lookup of
`(block_width, block_height, block_depth)`: `(4, 4, 1)` for the BCn block
formats and `(1, 1, 1)` for the uncompressed per-pixel formats. -/
def ImageFormat.block_dimensions : ImageFormat → Nat × Nat × Nat
  | .r8Unorm | .r8g8b8a8Unorm | .r8g8b8a8Srgb | .r32g32b32a32Float
  | .b8g8r8a8Unorm | .b8g8r8a8Srgb => (1, 1, 1)
  | _ => (4, 4, 1)

/-- Modelled from the spec: `ImageFormat::block_size_in_bytes` lives outside
`src/`; static table of the fixed compressed block payload size (8 or 16
bytes for BCn, bytes per pixel for uncompressed formats). -/
def ImageFormat.block_size_in_bytes : ImageFormat → Nat
  | .bc1Unorm | .bc1Srgb | .bc4Unorm | .bc4Snorm => 8
  | .bc2Unorm | .bc2Srgb | .bc3Unorm | .bc3Srgb | .bc5Unorm | .bc5Snorm
  | .bc6Ufloat | .bc6Sfloat | .bc7Unorm | .bc7Srgb => 16
  | .r8Unorm => 1
  | .r8g8b8a8Unorm | .r8g8b8a8Srgb | .b8g8r8a8Unorm | .b8g8r8a8Srgb => 4
  | .r32g32b32a32Float => 16

/-- An uncompressed RGBA8 input surface (`SurfaceRgba8`): dimensions in
pixels, array layer count, mip level count, and the flat byte buffer
(layer-outer, mip-inner, 4 bytes per pixel). -/
structure SurfaceRgba8 where
  width : Nat
  height : Nat
  depth : Nat
  layers : Nat
  mipmaps : Nat
  data : List Nat
deriving DecidableEq

/-- A compressed output surface (`Surface`). -/
structure Surface where
  width : Nat
  height : Nat
  depth : Nat
  layers : Nat
  mipmaps : Nat
  image_format : ImageFormat
  data : List Nat
deriving DecidableEq

/-- Validation / encoding errors (`SurfaceError` / `CompressSurfaceError`
collapsed into one enumeration; the two Rust enums share these variants and
convert into each other losslessly on this subset). -/
inductive SurfaceError
  | pixelCountWouldOverflow (width height depth : Nat)
  | notEnoughData (expected actual : Nat)
  | nonIntegralDimensionsInBlocks (width height depth blockWidth blockHeight : Nat)
  | zeroSizedSurface (width height depth : Nat)
deriving DecidableEq

/-- Runtime outcome of a fallible computation: a surfaced error value or a
Rust panic (out-of-bounds index, failed `unwrap`, bad slice range). -/
inductive RtError
  | surface (e : SurfaceError)
  | panic
deriving DecidableEq

/-- Ceiling division on naturals (`usize::div_ceil`). -/
def divCeil (a b : Nat) : Nat := (a + b - 1) / b

/-- Modelled from the spec: `round_up` lives outside `src/`; it rounds `x`
up to the nearest multiple of `n` (physical block-aligned dimension). -/
def round_up (x n : Nat) : Nat := divCeil x n * n

/-- Modelled from the spec: `mip_dimension` lives outside `src/`; the
virtual dimension of mip level `m` is `max(1, base >> m)` per axis. -/
def mip_dimension (base m : Nat) : Nat := max 1 (base >>> m)

/-- The per-level physical dimension used by `encode_mipmaps_rgba8`
(the `mip_dimension_rounded` closure in `src/image_dds/src/encode.rs`):
the virtual mip dimension rounded up to the block dimension. -/
def mip_dimension_rounded (x mipmap n : Nat) : Nat :=
  round_up (mip_dimension x mipmap) n

/-- Modelled from the spec: `max_mipmap_count` lives outside `src/`; the
automatic mip count is `floor(log2(max_dimension)) + 1`. -/
def max_mipmap_count (maxDimension : Nat) : Nat := Nat.log2 maxDimension + 1

/-- Checked multiplication against the platform size limit
(`usize::checked_mul` with `usize` = 64 bits). -/
def checkedMul (a b : Nat) : Option Nat :=
  if a * b < 2 ^ 64 then some (a * b) else none

/-- Modelled from the spec: `mip_size` lives outside `src/`; it computes the
storage size of one mip plane — block count per axis times the block payload
size — with checked arithmetic, `none` on overflow of the platform limit. -/
def mip_size (width height depth blockWidth blockHeight blockDepth blockSize : Nat) :
    Option Nat :=
  match checkedMul (divCeil width blockWidth) (divCeil height blockHeight) with
  | none => none
  | some a =>
    match checkedMul a (divCeil depth blockDepth) with
    | none => none
    | some b => checkedMul b blockSize

/-- Tile width of a BCn block (`BLOCK_WIDTH`). -/
def BLOCK_WIDTH : Nat := 4

/-- Tile height of a BCn block (`BLOCK_HEIGHT`). -/
def BLOCK_HEIGHT : Nat := 4

/-- Channels per pixel (`CHANNELS`). -/
def CHANNELS : Nat := 4

/-- RGBA8 elements covered by one BCn block (`ELEMENTS_PER_BLOCK`). -/
def ELEMENTS_PER_BLOCK : Nat := BLOCK_WIDTH * BLOCK_HEIGHT * CHANNELS

/-- `encode_bcn` from `src/image_dds/src/bcn/encode.rs`: validates the input
size with checked arithmetic before invoking a block compressor.  The
external compressor (`F::compress_surface`, delegated per the spec to an
external library treated as a pure surface-in/bytes-out function) is a
parameter. -/
def encode_bcn (compress : Nat → Nat → List Nat → List Nat) (width height : Nat)
    (data : List Nat) : Except SurfaceError (List Nat) :=
  match mip_size width height 1 BLOCK_WIDTH BLOCK_HEIGHT 1 ELEMENTS_PER_BLOCK with
  | none => .error (.pixelCountWouldOverflow width height 1)
  | some expectedSize =>
    if data.length < expectedSize then
      .error (.notEnoughData expectedSize data.length)
    else
      .ok (compress width height data)

/-- One term of the `sharp_alpha_block` accumulation in
`src/image_dds/src/bcn/encode.rs`: the 4-bit-quantized alpha of the pixel at
offset `(i, j)` from the block origin `(x, y)` — `x_final` adds `i`,
`y_final` adds `j`, both clamped with `min` against the saturated
`dimension - 1` — shifted to nibble `output_index = j * BLOCK_HEIGHT + i`.
`none` models the Rust index panic when the byte index is out of bounds. -/
def sharp_alpha_term (x y width height : Nat) (rgba8_data : List Nat) (i j : Nat) :
    Option Nat :=
  let xFinal := min (x + i) (width - 1)
  let yFinal := min (y + j) (height - 1)
  let inputIndex := (yFinal * width + xFinal) * CHANNELS + 3
  let outputIndex := j * BLOCK_HEIGHT + i
  match rgba8_data[inputIndex]? with
  | none => none
  | some a => some ((a / 17) <<< (outputIndex * 4))

/-- `sharp_alpha_block` from `src/image_dds/src/bcn/encode.rs`: ORs the 16
quantized alpha nibbles together, iterating `i` over `0..BLOCK_HEIGHT`
(outer) and `j` over `0..BLOCK_WIDTH` (inner). -/
def sharp_alpha_block (x y width height : Nat) (rgba8_data : List Nat) : Option Nat :=
  (List.range BLOCK_HEIGHT).foldl
    (fun acc i =>
      (List.range BLOCK_WIDTH).foldl
        (fun acc2 j =>
          match acc2, sharp_alpha_term x y width height rgba8_data i j with
          | some a, some t => some (a ||| t)
          | _, _ => none)
        acc)
    (some 0)

/-- `u128::from_le_bytes` over a 16-byte buffer: little-endian byte
composition. -/
def u128_from_le_bytes (bytes : List Nat) : Nat :=
  (List.range 16).foldl (fun acc k => acc + (bytes.getD k 0) <<< (8 * k)) 0

/-- `encode_bc2_block` from `src/image_dds/src/bcn/encode.rs`: keeps the
upper 64 bits (the color half) of the corresponding 16-byte BC3 block and
ORs in the independently derived 64-bit sharp-alpha word.  `none` models the
panics of the slice `bc3_data[block_start..block_start + 16]` and of the
alpha loop's indexing. -/
def encode_bc2_block (x y width height : Nat) (rgba8_data bc3_data : List Nat)
    (block_index : Nat) : Option Nat :=
  match sharp_alpha_block x y width height rgba8_data with
  | none => none
  | some alpha =>
    let blockSize := 16
    let blockStart := block_index * blockSize
    if bc3_data.length < blockStart + blockSize then none
    else
      let bc3ColorBlock :=
        u128_from_le_bytes ((bc3_data.drop blockStart).take blockSize) >>> 64
      some ((bc3ColorBlock <<< 64) ||| alpha)

/-- The sharp-alpha word as the amended claim C9 describes it: nibble `k`
(bits `4*k .. 4*k+3`, low-to-high address order) holds the 4-bit quantized
(`/ 17`) alpha of the tile pixel with column offset `k % 4` and row offset
`k / 4`, clamped to the last valid column/row of the live surface. -/
def spec_sharp_alpha (x y width height : Nat) (rgba8_data : List Nat) : Nat :=
  (List.range 16).foldl
    (fun acc k =>
      acc |||
        ((rgba8_data.getD
            ((min (y + k / 4) (height - 1) * width + min (x + k % 4) (width - 1)) *
                CHANNELS + 3) 0 / 17) <<< (4 * k)))
    0

/-- The sharp-alpha word as claim C9 literally states it (column-outer,
row-inner address order): nibble `k` would hold the pixel with column offset
`k / 4` and row offset `k % 4`. -/
def claim_sharp_alpha (x y width height : Nat) (rgba8_data : List Nat) : Nat :=
  (List.range 16).foldl
    (fun acc k =>
      acc |||
        ((rgba8_data.getD
            ((min (y + k % 4) (height - 1) * width + min (x + k / 4) (width - 1)) *
                CHANNELS + 3) 0 / 17) <<< (4 * k)))
    0

/-- The mip count policy (`Mipmaps` in the crate). -/
inductive Mipmaps
  | disabled
  | fromSurface
  | generatedExact (count : Nat)
  | generatedAutomatic
deriving DecidableEq, BEq

/-- The type of the external high-quality block encoder family, one pure
surface-in/bytes-out function per format and quality (spec section 6). -/
abbrev ExtEncoder : Type :=
  ImageFormat → Quality → Nat → Nat → List Nat → List Nat

/-- Modelled from the spec: the external encoder library (outside this
repository) "returns a flat compressed byte buffer of the exact expected
length" — one block payload per 4x4 tile — and is substitutable by a
deterministic stub (spec section 9). -/
def stub_ext : ExtEncoder := fun format _ width height _ =>
  List.replicate (divCeil width 4 * divCeil height 4 * format.block_size_in_bytes) 0

/-- Modelled from the spec: `bcn_from_rgba8` lives outside `src/`; it hands
the 2D plane to `encode_bcn` (all claims exercise `depth = 1`). -/
def bcn_from_rgba8 (compress : Nat → Nat → List Nat → List Nat)
    (width height _depth : Nat) (data : List Nat) : Except SurfaceError (List Nat) :=
  encode_bcn compress width height data

/-- Modelled from the spec: `r8_from_rgba8` lives outside `src/`; a plain
channel selection (keep the red byte of every pixel) after validating the
input length. -/
def r8_from_rgba8 (width height depth : Nat) (data : List Nat) :
    Except SurfaceError (List Nat) :=
  if data.length < width * height * depth * 4 then
    .error (.notEnoughData (width * height * depth * 4) data.length)
  else
    .ok ((List.range (width * height * depth)).map (fun i => data.getD (i * 4) 0))

/-- Modelled from the spec: `encode_rgba8_from_rgba8` lives outside `src/`;
the identity reordering after validating the input length. -/
def encode_rgba8_from_rgba8 (width height depth : Nat) (data : List Nat) :
    Except SurfaceError (List Nat) :=
  if data.length < width * height * depth * 4 then
    .error (.notEnoughData (width * height * depth * 4) data.length)
  else
    .ok (data.take (width * height * depth * 4))

/-- Modelled from the spec: `bgra8_from_rgba8` lives outside `src/`; swaps
the red and blue channel of every pixel after validating the input length. -/
def bgra8_from_rgba8 (width height depth : Nat) (data : List Nat) :
    Except SurfaceError (List Nat) :=
  if data.length < width * height * depth * 4 then
    .error (.notEnoughData (width * height * depth * 4) data.length)
  else
    .ok ((List.range (width * height * depth)).flatMap
      (fun i => [data.getD (i * 4 + 2) 0, data.getD (i * 4 + 1) 0,
                 data.getD (i * 4) 0, data.getD (i * 4 + 3) 0]))

/-- Modelled from the spec: `rgbaf32_from_rgba8` lives outside `src/`.  The
IEEE-754 bit layout of the widened channels is not modelled (no claim
depends on it); only the validated input length and the 16-bytes-per-pixel
output length are. -/
def rgbaf32_from_rgba8 (width height depth : Nat) (data : List Nat) :
    Except SurfaceError (List Nat) :=
  if data.length < width * height * depth * 4 then
    .error (.notEnoughData (width * height * depth * 4) data.length)
  else
    .ok (List.replicate (width * height * depth * 16) 0)

/-- `encode_rgba8` from `src/image_dds/src/encode.rs`: the closed per-format
dispatch. -/
def encode_rgba8 (ext : ExtEncoder) (width height depth : Nat) (data : List Nat)
    (format : ImageFormat) (quality : Quality) : Except SurfaceError (List Nat) :=
  match format with
  | .bc1Unorm | .bc1Srgb | .bc2Unorm | .bc2Srgb | .bc3Unorm | .bc3Srgb
  | .bc4Unorm | .bc4Snorm | .bc5Unorm | .bc5Snorm | .bc6Ufloat | .bc6Sfloat
  | .bc7Unorm | .bc7Srgb => bcn_from_rgba8 (ext format quality) width height depth data
  | .r8Unorm => r8_from_rgba8 width height depth data
  | .r8g8b8a8Unorm => encode_rgba8_from_rgba8 width height depth data
  | .r8g8b8a8Srgb => encode_rgba8_from_rgba8 width height depth data
  | .r32g32b32a32Float => rgbaf32_from_rgba8 width height depth data
  | .b8g8r8a8Unorm => bgra8_from_rgba8 width height depth data
  | .b8g8r8a8Srgb => bgra8_from_rgba8 width height depth data

/-- Modelled from the spec: the per-level byte size of an RGBA8 source
surface — the virtual mip dimensions times 4 bytes per pixel (uncompressed
formats have 1x1x1 blocks, so virtual and physical sizes agree). -/
def mip_level_size (s : SurfaceRgba8) (m : Nat) : Nat :=
  mip_dimension s.width m * mip_dimension s.height m * mip_dimension s.depth m * 4

/-- Modelled from the spec: `SurfaceRgba8::get` lives outside `src/`; it
returns the sub-buffer of one layer/level (layer-outer, mip-inner
concatenation order, spec section 3), or `none` when the request is outside
the stated layer/level counts or the buffer is too short. -/
def surface_get (s : SurfaceRgba8) (layer mipmap : Nat) : Option (List Nat) :=
  if layer < s.layers ∧ mipmap < s.mipmaps then
    let offset := layer * ((List.range s.mipmaps).map (mip_level_size s)).sum +
      ((List.range mipmap).map (mip_level_size s)).sum
    let size := mip_level_size s mipmap
    if offset + size ≤ s.data.length then some ((s.data.drop offset).take size)
    else none
  else none

/-- One write of the zero-padding loop in `encode_mipmaps_rgba8`
(`src/image_dds/src/encode.rs` lines 112-123): `padded_data[i] = data[i]`,
where the read panics (`none`) when `i` is outside the supplied data. -/
def pad_step (data : List Nat) (acc : Option (List Nat)) (i : Nat) : Option (List Nat) :=
  match acc, data[i]? with
  | some p, some v => some (p.set i v)
  | _, _ => none

/-- The zero-padding loop of `encode_mipmaps_rgba8`: allocates
`mip_width * mip_height * mip_depth * 4` zero bytes and copies
`data[i]` to position `i` for every `(z, y, x)` in the physical grid with
`i = z * mip_width * mip_height + y * mip_width + x`. -/
def zero_pad (data : List Nat) (mipWidth mipHeight mipDepth : Nat) : Option (List Nat) :=
  (List.range mipDepth).foldl
    (fun accz z =>
      (List.range mipHeight).foldl
        (fun accy y =>
          (List.range mipWidth).foldl
            (fun accx x =>
              pad_step data accx (z * mipWidth * mipHeight + y * mipWidth + x))
            accy)
        accz)
    (some (List.replicate (mipWidth * mipHeight * mipDepth * 4) 0))

/-- Modelled from the spec: `downsample_rgba8` lives outside `src/`; each
output pixel of the `nw x nh x nd` level averages the up-to-2x2x2 in-range
input pixels of the previous level's `pw x ph x pd` physical grid, never
reading out of bounds (spec section 4.4). -/
def downsample_rgba8 (nw nh nd pw ph pd : Nat) (src : List Nat) : List Nat :=
  (List.range (nw * nh * nd * 4)).map (fun idx =>
    let c := idx % 4
    let p := idx / 4
    let x := p % nw
    let y := p / nw % nh
    let z := p / (nw * nh)
    let pts :=
      ((List.range 2).flatMap (fun dz =>
        (List.range 2).flatMap (fun dy =>
          (List.range 2).map (fun dx => (2 * x + dx, 2 * y + dy, 2 * z + dz))))).filter
        (fun q => q.1 < pw ∧ q.2.1 < ph ∧ q.2.2 < pd)
    if pts.length = 0 then 0
    else
      (pts.map (fun q => src.getD (((q.2.2 * ph + q.2.1) * pw + q.1) * 4 + c) 0)).sum /
        pts.length)

/-- The `use_surface` arm of the mip-image selection in
`encode_mipmaps_rgba8` (`src/image_dds/src/encode.rs` lines 104-128): fetch
the level's data from the source surface (`unwrap` panics on `none`), and
zero-pad it when it is shorter than the physical byte size (the padding
loop's read panics when its index leaves the supplied data). -/
def mip_source_image (surface : SurfaceRgba8) (layer mipmap mw mh md : Nat) :
    Except RtError (List Nat) :=
  match surface_get surface layer mipmap with
  | none => .error .panic
  | some levelData =>
    if levelData.length < mw * mh * md * 4 then
      match zero_pad levelData mw mh md with
      | none => .error .panic
      | some padded => .ok padded
    else .ok levelData

/-- The `for mipmap in 1..num_mipmaps` loop body of `encode_mipmaps_rgba8`
(`src/image_dds/src/encode.rs`): per level, compute the block-rounded
physical dimensions, obtain the level's pixels either from the source
surface (zero-padding short data) or by downsampling the previous level,
encode them, and recurse with the level as the new previous image. -/
def mip_loop (ext : ExtEncoder) (surface : SurfaceRgba8) (format : ImageFormat)
    (quality : Quality) (useSurface : Bool) (layer : Nat) :
    Nat → Nat → List Nat → Nat → Nat → Nat → Except RtError (List Nat)
  | 0, _, _, _, _, _ => .ok []
  | remaining + 1, mipmap, mipImage, pw, ph, pd =>
    let bw := format.block_dimensions.1
    let bh := format.block_dimensions.2.1
    let bd := format.block_dimensions.2.2
    let mw := mip_dimension_rounded surface.width mipmap bw
    let mh := mip_dimension_rounded surface.height mipmap bh
    let md := mip_dimension_rounded surface.depth mipmap bd
    let newImage : Except RtError (List Nat) :=
      if useSurface then mip_source_image surface layer mipmap mw mh md
      else .ok (downsample_rgba8 mw mh md pw ph pd mipImage)
    match newImage with
    | .error e => .error e
    | .ok img =>
      match encode_rgba8 ext mw mh md img format quality with
      | .error e => .error (.surface e)
      | .ok mipData =>
        match mip_loop ext surface format quality useSurface layer remaining
            (mipmap + 1) img mw mh md with
        | .error e => .error e
        | .ok rest => .ok (mipData ++ rest)

/-- `encode_mipmaps_rgba8` from `src/image_dds/src/encode.rs`: encodes the
base level (dimensions clamped up to one block) followed by levels
`1..num_mipmaps`, returning the layer's concatenated bytes. -/
def encode_mipmaps_rgba8 (ext : ExtEncoder) (surface : SurfaceRgba8)
    (format : ImageFormat) (quality : Quality) (num_mipmaps : Nat)
    (use_surface : Bool) (layer : Nat) : Except RtError (List Nat) :=
  let bw := format.block_dimensions.1
  let bh := format.block_dimensions.2.1
  let bd := format.block_dimensions.2.2
  match encode_rgba8 ext (max surface.width bw) (max surface.height bh)
      (max surface.depth bd) surface.data format quality with
  | .error e => .error (.surface e)
  | .ok baseLayer =>
    match mip_loop ext surface format quality use_surface layer (num_mipmaps - 1) 1
        surface.data surface.width surface.height surface.depth with
    | .error e => .error e
    | .ok rest => .ok (baseLayer ++ rest)

/-- The `for layer in 0..layers` loop of `encode_surface_rgba8`: appends each
layer's encoded bytes in order. -/
def encode_layers (ext : ExtEncoder) (surface : SurfaceRgba8) (format : ImageFormat)
    (quality : Quality) (num_mipmaps : Nat) (use_surface : Bool) :
    Nat → Except RtError (List Nat)
  | 0 => .ok []
  | n + 1 =>
    match encode_layers ext surface format quality num_mipmaps use_surface n with
    | .error e => .error e
    | .ok acc =>
      match encode_mipmaps_rgba8 ext surface format quality num_mipmaps use_surface n with
      | .error e => .error e
      | .ok cur => .ok (acc ++ cur)

/-- Modelled from the spec: `SurfaceRgba8::validate_encode` lives outside
`src/`; the eager input validation (spec sections 4.3 and 7): any zero
dimension is a `ZeroSizedSurface` error, and encode additionally rejects
width/height that are not exact multiples of the block dimensions. -/
def validate_encode (s : SurfaceRgba8) (format : ImageFormat) :
    Except SurfaceError Unit :=
  if s.width = 0 ∨ s.height = 0 ∨ s.depth = 0 then
    .error (.zeroSizedSurface s.width s.height s.depth)
  else
    if s.width % format.block_dimensions.1 ≠ 0 ∨
        s.height % format.block_dimensions.2.1 ≠ 0 then
      .error (.nonIntegralDimensionsInBlocks s.width s.height s.depth
        format.block_dimensions.1 format.block_dimensions.2.1)
    else .ok ()

/-- The `let num_mipmaps = match mipmaps { .. }` computation of
`encode_surface_rgba8` (`src/image_dds/src/encode.rs` lines 27-32). -/
def mip_count (mipmaps : Mipmaps) (surface : SurfaceRgba8) : Nat :=
  match mipmaps with
  | .disabled => 1
  | .fromSurface => surface.mipmaps
  | .generatedExact count => count
  | .generatedAutomatic =>
    max_mipmap_count (max (max surface.width surface.height) surface.depth)

/-- `encode_surface_rgba8` from `src/image_dds/src/encode.rs`: validate,
determine the mip count from the policy, encode every layer, and assemble
the output `Surface` with the input dimensions, the requested format, the
policy-determined mip count, and the concatenated data. -/
def encode_surface_rgba8 (ext : ExtEncoder) (surface : SurfaceRgba8)
    (format : ImageFormat) (quality : Quality) (mipmaps : Mipmaps) :
    Except RtError Surface :=
  match validate_encode surface format with
  | .error e => .error (.surface e)
  | .ok _ =>
    let num_mipmaps := mip_count mipmaps surface
    let use_surface := mipmaps == Mipmaps.fromSurface
    match encode_layers ext surface format quality num_mipmaps use_surface
        surface.layers with
    | .error e => .error e
    | .ok surfaceData =>
      .ok ⟨surface.width, surface.height, surface.depth, surface.layers,
        num_mipmaps, format, surfaceData⟩

/-- Projection of a successful encode's mip count, used to state concrete
evaluations. -/
def ok_mipmaps (r : Except RtError Surface) : Option Nat :=
  match r with
  | .ok s => some s.mipmaps
  | .error _ => none

/-- Projection of a successful encode's data length, used to state concrete
evaluations. -/
def ok_data_length (r : Except RtError Surface) : Option Nat :=
  match r with
  | .ok s => some s.data.length
  | .error _ => none

instance exceptDecEq {e a : Type} [DecidableEq e] [DecidableEq a] :
    DecidableEq (Except e a)
  | .error x, .error y =>
    if h : x = y then isTrue (by rw [h]) else
      isFalse (by intro hc; injection hc; contradiction)
  | .error _, .ok _ => isFalse (by intro h; exact Except.noConfusion h)
  | .ok _, .error _ => isFalse (by intro h; exact Except.noConfusion h)
  | .ok x, .ok y =>
    if h : x = y then isTrue (by rw [h]) else
      isFalse (by intro hc; injection hc; contradiction)

theorem le_divCeil_mul (v b : Nat) (hb : 0 < b) : v ≤ divCeil v b * b := by
  rcases v with _ | v0
  · exact Nat.zero_le _
  · unfold divCeil
    have hrw : v0 + 1 + b - 1 = v0 + b := by omega
    rw [hrw, Nat.add_div_right v0 hb, Nat.succ_mul, Nat.mul_comm]
    have h1 := Nat.div_add_mod v0 b
    have h2 := Nat.mod_lt v0 hb
    omega

theorem divCeil_mul_lt_add (v b : Nat) (hb : 0 < b) : divCeil v b * b < v + b := by
  rcases v with _ | v0
  · unfold divCeil
    have h0 : 0 + b - 1 = b - 1 := by omega
    rw [h0, Nat.div_eq_of_lt (by omega), Nat.zero_mul]
    omega
  · unfold divCeil
    have hrw : v0 + 1 + b - 1 = v0 + b := by omega
    rw [hrw, Nat.add_div_right v0 hb, Nat.succ_mul, Nat.mul_comm]
    have h1 := Nat.div_add_mod v0 b
    have h2 := Nat.mod_lt v0 hb
    omega

theorem divCeil_mul_mod (v b : Nat) : divCeil v b * b % b = 0 := Nat.mul_mod_left _ _

theorem divCeil_mul_self (k b : Nat) (hb : 0 < b) : divCeil (k * b) b = k := by
  unfold divCeil
  have hrw : k * b + b - 1 = b * k + (b - 1) := by rw [Nat.mul_comm]; omega
  rw [hrw, Nat.mul_add_div hb, Nat.div_eq_of_lt (by omega)]
  omega

theorem divCeil_eq_of_mod (a b : Nat) (hb : 0 < b) (h : a % b = 0) :
    divCeil a b * b = a := by
  obtain ⟨k, hk⟩ := Nat.dvd_of_mod_eq_zero h
  subst hk
  rw [Nat.mul_comm b k, divCeil_mul_self k b hb]

theorem divCeil_le_divCeil (a b n : Nat) (h : a ≤ b) : divCeil a n ≤ divCeil b n :=
  Nat.div_le_div_right (by omega)

/-- C5: a request with `width = height = depth = 0` fails with the
zero-sized-surface error for every format, quality, mip policy, layer/mip
count, data buffer, and — since the result does not depend on `ext` — before
any codec invocation. -/
theorem c5_zero_sized_surface_error (ext : ExtEncoder) (layers mipmaps : Nat)
    (data : List Nat) (format : ImageFormat) (quality : Quality) (policy : Mipmaps) :
    encode_surface_rgba8 ext ⟨0, 0, 0, layers, mipmaps, data⟩ format quality policy =
      .error (.surface (.zeroSizedSurface 0 0 0)) := by
  simp [encode_surface_rgba8, validate_encode]

/-- C4: when width or height is not an exact multiple of the format's block
dimensions (and no dimension is zero, which the modelled validation reports
first), `encode_surface_rgba8` fails with the non-integral-block-dimensions
error — for every data buffer, so also when it is large enough — and no
output is produced. -/
theorem c4_non_integral_dimensions_error (ext : ExtEncoder) (s : SurfaceRgba8)
    (format : ImageFormat) (quality : Quality) (policy : Mipmaps)
    (hw : s.width ≠ 0) (hh : s.height ≠ 0) (hd : s.depth ≠ 0)
    (hblocks : s.width % format.block_dimensions.1 ≠ 0 ∨
      s.height % format.block_dimensions.2.1 ≠ 0) :
    encode_surface_rgba8 ext s format quality policy =
      .error (.surface (.nonIntegralDimensionsInBlocks s.width s.height s.depth
        format.block_dimensions.1 format.block_dimensions.2.1)) := by
  have hval : validate_encode s format =
      .error (.nonIntegralDimensionsInBlocks s.width s.height s.depth
        format.block_dimensions.1 format.block_dimensions.2.1) := by
    unfold validate_encode
    rw [if_neg (by simp [hw, hh, hd]), if_pos hblocks]
  simp [encode_surface_rgba8, hval]

/-- C4 witness: the repository's own test input — width 3, height 5, depth 2
with BC7 (4x4 blocks) and 256 bytes of data — is rejected with
`NonIntegralDimensionsInBlocks { width: 3, height: 5, depth: 2,
block_width: 4, block_height: 4 }`. -/
theorem c4_witness :
    encode_surface_rgba8 stub_ext ⟨3, 5, 2, 1, 1, List.replicate 256 0⟩ .bc7Srgb .fast
        .generatedAutomatic =
      .error (.surface (.nonIntegralDimensionsInBlocks 3 5 2 4 4)) := by
  exact c4_non_integral_dimensions_error stub_ext ⟨3, 5, 2, 1, 1, List.replicate 256 0⟩
    .bc7Srgb .fast .generatedAutomatic (by decide) (by decide) (by decide)
    (by left; decide)

/-- C1: evaluating the code at the failing input.  A 4x4 RGBA8 surface with
three supplied mip levels (64 + 16 + 4 = 84 bytes) encoded with the
from-source mip policy panics: at mip level 2 the level's supplied data is 4
bytes but the zero-padding loop indexes every position of the 4x4x1 physical
grid, reading `data[4]` out of bounds — the padding loop's index is not
bounded by the supplied data's length, contradicting the claim and the
spec's no-out-of-bounds requirement. -/
theorem c1_from_surface_padding_reads_out_of_bounds :
    encode_surface_rgba8 stub_ext ⟨4, 4, 1, 1, 3, List.replicate 84 0⟩ .bc7Srgb .fast
        .fromSurface = .error .panic := by
  decide


/-- The checked size computation `mip_size(w, h, 1, 4, 4, 1, 64)` used by
`encode_bcn` equals the block-count product times 64 elements, with `none`
exactly when that product reaches the platform limit `2 ^ 64`. -/
theorem mip_size_bcn_eq (w h : Nat) :
    mip_size w h 1 BLOCK_WIDTH BLOCK_HEIGHT 1 ELEMENTS_PER_BLOCK =
      if divCeil w 4 * divCeil h 4 * 64 < 2 ^ 64 then
        some (divCeil w 4 * divCeil h 4 * 64) else none := by
  show mip_size w h 1 4 4 1 64 = _
  unfold mip_size checkedMul
  by_cases h1 : divCeil w 4 * divCeil h 4 < 2 ^ 64
  · have hone : divCeil 1 1 = 1 := rfl
    simp only [if_pos h1, hone, Nat.mul_one, if_pos h1]
  · rw [if_neg h1, if_neg]
    have hle : divCeil w 4 * divCeil h 4 ≤ divCeil w 4 * divCeil h 4 * 64 :=
      Nat.le_mul_of_pos_right _ (by omega)
    omega

/-- When the checked size computation succeeds, `encode_bcn` reduces to the
length test followed by the compressor call. -/
theorem encode_bcn_of_some (compress : Nat → Nat → List Nat → List Nat)
    (w h V : Nat) (data : List Nat)
    (hV : mip_size w h 1 BLOCK_WIDTH BLOCK_HEIGHT 1 ELEMENTS_PER_BLOCK = some V) :
    encode_bcn compress w h data =
      if data.length < V then .error (.notEnoughData V data.length)
      else .ok (compress w h data) := by
  unfold encode_bcn
  rw [hV]

/-- When the checked size computation overflows, `encode_bcn` reports the
pixel-count-overflow error. -/
theorem encode_bcn_of_none (compress : Nat → Nat → List Nat → List Nat)
    (w h : Nat) (data : List Nat)
    (hV : mip_size w h 1 BLOCK_WIDTH BLOCK_HEIGHT 1 ELEMENTS_PER_BLOCK = none) :
    encode_bcn compress w h data = .error (.pixelCountWouldOverflow w h 1) := by
  unfold encode_bcn
  rw [hV]

/-- C3 (amended): `encode_bcn` returns the pixel-count-overflow error when
the block-padded element count `ceil(w/4)*4 * (ceil(h/4)*4) * 4` (4 elements
per pixel — the claim omitted this channel factor) reaches `2 ^ 64`, returns
the not-enough-data error when the buffer holds fewer elements than that
count, and otherwise returns exactly the block compressor's output; both
checks are independent of the compressor. -/
theorem c3_encode_bcn_validation (compress : Nat → Nat → List Nat → List Nat)
    (w h : Nat) (data : List Nat) :
    (2 ^ 64 ≤ divCeil w 4 * 4 * (divCeil h 4 * 4) * 4 →
      encode_bcn compress w h data = .error (.pixelCountWouldOverflow w h 1)) ∧
    (divCeil w 4 * 4 * (divCeil h 4 * 4) * 4 < 2 ^ 64 →
      data.length < divCeil w 4 * 4 * (divCeil h 4 * 4) * 4 →
      encode_bcn compress w h data =
        .error (.notEnoughData (divCeil w 4 * 4 * (divCeil h 4 * 4) * 4) data.length)) ∧
    (divCeil w 4 * 4 * (divCeil h 4 * 4) * 4 < 2 ^ 64 →
      divCeil w 4 * 4 * (divCeil h 4 * 4) * 4 ≤ data.length →
      encode_bcn compress w h data = .ok (compress w h data)) := by
  have hR : divCeil w 4 * 4 * (divCeil h 4 * 4) * 4 = divCeil w 4 * divCeil h 4 * 64 := by
    ring
  rw [hR]
  refine ⟨?_, ?_, ?_⟩
  · intro hov
    refine encode_bcn_of_none compress w h data ?_
    rw [mip_size_bcn_eq, if_neg (by omega)]
  · intro hok hlt
    rw [encode_bcn_of_some compress w h _ data
      (by rw [mip_size_bcn_eq, if_pos hok]), if_pos hlt]
  · intro hok hge
    rw [encode_bcn_of_some compress w h _ data
      (by rw [mip_size_bcn_eq, if_pos hok]), if_neg (by omega)]

/-- C3 counterexample: for width 4, height 4 and a buffer of 16 elements the
claim's required size `ceil(4/4)*4 * (ceil(4/4)*4) = 16` is met, yet
`encode_bcn` does not invoke the compressor — it fails with
`NotEnoughData { expected: 64, actual: 16 }`, because the real requirement
carries the additional factor of 4 elements per pixel. -/
theorem c3_counterexample :
    ¬ (List.replicate 16 (0 : Nat)).length < divCeil 4 4 * 4 * (divCeil 4 4 * 4) ∧
    encode_bcn (stub_ext .bc7Srgb .fast) 4 4 (List.replicate 16 0) =
      .error (.notEnoughData 64 16) ∧
    encode_bcn (stub_ext .bc7Srgb .fast) 4 4 (List.replicate 16 0) ≠
      .ok (stub_ext .bc7Srgb .fast 4 4 (List.replicate 16 0)) :=
  ⟨by decide, by decide, by decide⟩

/-- C3 witness: with 64 elements for a 4x4 surface both checks pass and the
compressor's output is returned. -/
theorem c3_witness :
    divCeil 4 4 * 4 * (divCeil 4 4 * 4) * 4 < 2 ^ 64 ∧
    divCeil 4 4 * 4 * (divCeil 4 4 * 4) * 4 ≤ (List.replicate 64 (0 : Nat)).length ∧
    encode_bcn (stub_ext .bc7Srgb .fast) 4 4 (List.replicate 64 0) =
      .ok (stub_ext .bc7Srgb .fast 4 4 (List.replicate 64 0)) :=
  ⟨by decide, by decide,
    (c3_encode_bcn_validation (stub_ext .bc7Srgb .fast) 4 4 (List.replicate 64 0)).2.2
      (by decide) (by decide)⟩

/-- C8: for every axis, the virtual dimension of mip level `m` is
`max(1, base >> m)` (the shift being division by `2 ^ m`), and the physical
dimension `mip_dimension_rounded` used for storage and encoding is the least
multiple of the block dimension that is at least the virtual dimension. -/
theorem c8_mip_level_dimensions (base m bd : Nat) (_hm : 0 < m) (hbd : 0 < bd) :
    mip_dimension base m = max 1 (base / 2 ^ m) ∧
    mip_dimension_rounded base m bd % bd = 0 ∧
    mip_dimension base m ≤ mip_dimension_rounded base m bd ∧
    mip_dimension_rounded base m bd < mip_dimension base m + bd := by
  refine ⟨by simp [mip_dimension, Nat.shiftRight_eq_div_pow], ?_, ?_, ?_⟩
  · unfold mip_dimension_rounded round_up
    exact divCeil_mul_mod _ _
  · unfold mip_dimension_rounded round_up
    exact le_divCeil_mul _ _ hbd
  · unfold mip_dimension_rounded round_up
    exact divCeil_mul_lt_add _ _ hbd

/-- C8 witness: base dimension 12 at mip level 1 with block dimension 4 has
virtual dimension 6 and physical dimension 8. -/
theorem c8_witness :
    mip_dimension 12 1 = max 1 (12 / 2 ^ 1) ∧
    mip_dimension_rounded 12 1 4 % 4 = 0 ∧
    mip_dimension 12 1 ≤ mip_dimension_rounded 12 1 4 ∧
    mip_dimension_rounded 12 1 4 < mip_dimension 12 1 + 4 :=
  c8_mip_level_dimensions 12 1 4 (by decide) (by decide)


/-- Inversion of a successful `encode_surface_rgba8`: the output surface
carries the input dimensions and layer count, the requested format, the
policy-determined mip count, and the bytes produced by the layer loop. -/
theorem encode_surface_ok_inv (ext : ExtEncoder) (s : SurfaceRgba8)
    (format : ImageFormat) (quality : Quality) (policy : Mipmaps) (out : Surface)
    (h : encode_surface_rgba8 ext s format quality policy = .ok out) :
    ∃ surfaceData,
      encode_layers ext s format quality (mip_count policy s)
        (policy == Mipmaps.fromSurface) s.layers = .ok surfaceData ∧
      out = ⟨s.width, s.height, s.depth, s.layers, mip_count policy s, format,
        surfaceData⟩ := by
  unfold encode_surface_rgba8 at h
  split at h
  · exact absurd h (by simp)
  · dsimp only [] at h
    split at h
    · exact absurd h (by simp)
    · rename_i surfaceData heq
      refine ⟨surfaceData, heq, ?_⟩
      injection h with h2
      exact h2.symm

/-- C7: on success the output's mip level count is exactly the policy's:
1 for `Disabled` (whatever the source's own count), the source surface's
stated count for `FromSurface`, the caller's count for `GeneratedExact`,
and `floor(log2(max(width, height, depth))) + 1` for `GeneratedAutomatic`. -/
theorem c7_mip_count_policy (ext : ExtEncoder) (s : SurfaceRgba8)
    (format : ImageFormat) (quality : Quality) (policy : Mipmaps) (out : Surface)
    (h : encode_surface_rgba8 ext s format quality policy = .ok out) :
    out.mipmaps =
      match policy with
      | .disabled => 1
      | .fromSurface => s.mipmaps
      | .generatedExact count => count
      | .generatedAutomatic => Nat.log2 (max (max s.width s.height) s.depth) + 1 := by
  obtain ⟨d, hd, hout⟩ := encode_surface_ok_inv ext s format quality policy out h
  subst hout
  cases policy <;> rfl

/-- C7 witness: a 4x4 source surface that carries 3 mip levels of its own
encodes to exactly 1 output level under the `Disabled` policy. -/
theorem c7_witness :
    ok_mipmaps (encode_surface_rgba8 stub_ext ⟨4, 4, 1, 1, 3, List.replicate 84 0⟩
      .bc7Srgb .fast .disabled) = some 1 := by
  have hok : encode_surface_rgba8 stub_ext ⟨4, 4, 1, 1, 3, List.replicate 84 0⟩
      .bc7Srgb .fast .disabled = .ok ⟨4, 4, 1, 1, 1, .bc7Srgb, List.replicate 16 0⟩ := by
    decide
  have h := c7_mip_count_policy stub_ext ⟨4, 4, 1, 1, 3, List.replicate 84 0⟩
    .bc7Srgb .fast .disabled _ hok
  rw [hok]
  exact congrArg some h

/-- A successful layer loop produces the concatenation, in layer order, of
each layer's successful `encode_mipmaps_rgba8` bytes. -/
theorem encode_layers_ok_decomp (ext : ExtEncoder) (s : SurfaceRgba8)
    (format : ImageFormat) (quality : Quality) (n : Nat) (u : Bool) :
    ∀ (k : Nat) (bytes : List Nat),
      encode_layers ext s format quality n u k = .ok bytes →
      ∃ f : Nat → List Nat,
        (∀ l, l < k → encode_mipmaps_rgba8 ext s format quality n u l = .ok (f l)) ∧
        bytes = ((List.range k).map f).flatten := by
  intro k
  induction k with
  | zero =>
    intro bytes h
    refine ⟨fun _ => [], fun l hl => absurd hl (by omega), ?_⟩
    unfold encode_layers at h
    injection h with h2
    simp [← h2]
  | succ k ih =>
    intro bytes h
    unfold encode_layers at h
    split at h
    · exact absurd h (by simp)
    · rename_i acc hacc
      split at h
      · exact absurd h (by simp)
      · rename_i cur hcur
        injection h with h2
        obtain ⟨f, hf, hbytes⟩ := ih acc hacc
        refine ⟨fun l => if l = k then cur else f l, ?_, ?_⟩
        · intro l hl
          by_cases hlk : l = k
          · subst hlk
            simp [hcur]
          · have hlt : l < k := by omega
            simp [hlk, hf l hlt]
        · have hmap : (List.range k).map (fun l => if l = k then cur else f l) =
              (List.range k).map f := by
            apply List.map_congr_left
            intro a ha
            have : a < k := List.mem_range.mp ha
            simp [show a ≠ k by omega]
          rw [← h2, hbytes, List.range_succ, List.map_append, List.flatten_append,
            hmap]
          simp

/-- A successful mip loop over `remaining` levels produces the concatenation
of `remaining` per-level chunks. -/
theorem mip_loop_ok_chunks (ext : ExtEncoder) (s : SurfaceRgba8)
    (format : ImageFormat) (quality : Quality) (u : Bool) (layer : Nat) :
    ∀ (remaining mipmap : Nat) (img : List Nat) (pw ph pd : Nat) (bytes : List Nat),
      mip_loop ext s format quality u layer remaining mipmap img pw ph pd = .ok bytes →
      ∃ chunks : List (List Nat), chunks.length = remaining ∧ bytes = chunks.flatten := by
  intro remaining
  induction remaining with
  | zero =>
    intro mipmap img pw ph pd bytes h
    refine ⟨[], rfl, ?_⟩
    unfold mip_loop at h
    injection h with h2
    simp [← h2]
  | succ r ih =>
    intro mipmap img pw ph pd bytes h
    unfold mip_loop at h
    dsimp only [] at h
    split at h
    · exact absurd h (by simp)
    · rename_i img2 himg2
      split at h
      · exact absurd h (by simp)
      · rename_i mipData hmip
        split at h
        · exact absurd h (by simp)
        · rename_i rest hrest
          injection h with h2
          obtain ⟨chunks, hlen, hflat⟩ := ih _ _ _ _ _ _ hrest
          refine ⟨mipData :: chunks, by simp [hlen], ?_⟩
          rw [← h2, hflat]
          simp

/-- A successful `encode_mipmaps_rgba8` call produces the concatenation of
one chunk per encoded level: the base level plus `n - 1` further levels,
hence `max 1 n` chunks. -/
theorem encode_mipmaps_ok_decomp (ext : ExtEncoder) (s : SurfaceRgba8)
    (format : ImageFormat) (quality : Quality) (n : Nat) (u : Bool) (layer : Nat)
    (bytes : List Nat)
    (h : encode_mipmaps_rgba8 ext s format quality n u layer = .ok bytes) :
    ∃ chunks : List (List Nat), chunks.length = max 1 n ∧ bytes = chunks.flatten := by
  unfold encode_mipmaps_rgba8 at h
  dsimp only [] at h
  split at h
  · exact absurd h (by simp)
  · rename_i base hbase
    split at h
    · exact absurd h (by simp)
    · rename_i rest hrest
      injection h with h2
      obtain ⟨chunks, hlen, hflat⟩ := mip_loop_ok_chunks ext s format quality u layer
        _ _ _ _ _ _ _ hrest
      refine ⟨base :: chunks, by simp [hlen]; omega, ?_⟩
      rw [← h2, hflat]
      simp

/-- C10: whenever `encode_surface_rgba8` succeeds, the output `Surface`
keeps the input's width/height/depth (not rounded to block multiples) and
layer count, records the requested format and the policy-determined mip
count, and its data is the concatenation — layer outer, mip level inner —
of each level's encoded bytes. -/
theorem c10_output_surface_shape (ext : ExtEncoder) (s : SurfaceRgba8)
    (format : ImageFormat) (quality : Quality) (policy : Mipmaps) (out : Surface)
    (h : encode_surface_rgba8 ext s format quality policy = .ok out) :
    out.width = s.width ∧ out.height = s.height ∧ out.depth = s.depth ∧
    out.layers = s.layers ∧ out.image_format = format ∧
    out.mipmaps = mip_count policy s ∧
    ∃ layerBytes : Nat → List Nat,
      (∀ l, l < s.layers →
        encode_mipmaps_rgba8 ext s format quality (mip_count policy s)
          (policy == Mipmaps.fromSurface) l = .ok (layerBytes l) ∧
        ∃ chunks : List (List Nat), chunks.length = max 1 (mip_count policy s) ∧
          layerBytes l = chunks.flatten) ∧
      out.data = ((List.range s.layers).map layerBytes).flatten := by
  obtain ⟨d, hd, hout⟩ := encode_surface_ok_inv ext s format quality policy out h
  obtain ⟨f, hf, hflat⟩ := encode_layers_ok_decomp ext s format quality
    (mip_count policy s) (policy == Mipmaps.fromSurface) s.layers d hd
  subst hout
  refine ⟨rfl, rfl, rfl, rfl, rfl, rfl, f, ?_, hflat⟩
  intro l hl
  exact ⟨hf l hl, encode_mipmaps_ok_decomp ext s format quality _ _ l (f l) (hf l hl)⟩

set_option maxRecDepth 4000 in
/-- C10 witness: a 4x4 surface with 2 array layers under the `Disabled`
policy keeps its dimensions and layer count and concatenates one 16-byte
level per layer. -/
theorem c10_witness :
    encode_surface_rgba8 stub_ext ⟨4, 4, 1, 2, 1, List.replicate 128 0⟩ .bc7Srgb .fast
        .disabled = .ok ⟨4, 4, 1, 2, 1, .bc7Srgb, List.replicate 32 0⟩ ∧
    (⟨4, 4, 1, 2, 1, .bc7Srgb, List.replicate 32 0⟩ : Surface).width = 4 ∧
    (⟨4, 4, 1, 2, 1, .bc7Srgb, List.replicate 32 0⟩ : Surface).mipmaps =
      mip_count .disabled ⟨4, 4, 1, 2, 1, List.replicate 128 0⟩ := by
  have hok : encode_surface_rgba8 stub_ext ⟨4, 4, 1, 2, 1, List.replicate 128 0⟩
      .bc7Srgb .fast .disabled = .ok ⟨4, 4, 1, 2, 1, .bc7Srgb, List.replicate 32 0⟩ := by
    decide
  have h := c10_output_surface_shape stub_ext ⟨4, 4, 1, 2, 1, List.replicate 128 0⟩
    .bc7Srgb .fast .disabled _ hok
  exact ⟨hok, h.1, h.2.2.2.2.2.1⟩


/-- Left-commutativity of bitwise or, used to normalise or-chains. -/
theorem lor_left_comm (a b c : Nat) : a ||| (b ||| c) = b ||| (a ||| c) := by
  rw [← Nat.lor_assoc, Nat.lor_comm a b, Nat.lor_assoc]

/-- An in-bounds optional lookup returns the defaulted lookup's value. -/
theorem getElem?_eq_some_getD (l : List Nat) (n : Nat) (hn : n < l.length) :
    l[n]? = some (l.getD n 0) := by
  rw [List.getElem?_eq_getElem hn, List.getD_eq_getElem l 0 hn]

/-- The clamped alpha byte index of `sharp_alpha_block` stays inside any
buffer holding `width * height` RGBA8 pixels — clamping prevents every
out-of-bounds read. -/
theorem alpha_input_index_lt (w h a b len : Nat) (hw : 0 < w) (hh : 0 < h)
    (hlen : w * h * 4 ≤ len) :
    (min b (h - 1) * w + min a (w - 1)) * CHANNELS + 3 < len := by
  simp only [CHANNELS]
  have h1 : min b (h - 1) ≤ h - 1 := Nat.min_le_right _ _
  have h2 : min a (w - 1) ≤ w - 1 := Nat.min_le_right _ _
  have h3 : min b (h - 1) * w ≤ (h - 1) * w := Nat.mul_le_mul_right _ h1
  have h4 : (h - 1) * w + w = h * w := by
    cases h with
    | zero => omega
    | succ h0 => simp [Nat.succ_mul, Nat.succ_sub_one]
  have hlen2 : h * w * 4 ≤ len := by rw [Nat.mul_comm h w]; exact hlen
  omega

/-- With enough pixel data, one alpha term never panics: it reads the
clamped pixel's alpha byte, quantises it by 17, and shifts it to nibble
`j * 4 + i`. -/
theorem sharp_alpha_term_eq (x y w h : Nat) (data : List Nat)
    (hw : 0 < w) (hh : 0 < h) (hlen : w * h * 4 ≤ data.length) (i j : Nat) :
    sharp_alpha_term x y w h data i j =
      some ((data.getD ((min (y + j) (h - 1) * w + min (x + i) (w - 1)) * CHANNELS + 3)
          0 / 17) <<< ((j * BLOCK_HEIGHT + i) * 4)) := by
  unfold sharp_alpha_term
  dsimp only
  rw [getElem?_eq_some_getD data _ (alpha_input_index_lt w h (x + i) (y + j) data.length
    hw hh hlen)]

/-- Reordering an or-chain of 16 shifted nibbles from the source's
column-outer traversal order into low-to-high nibble address order. -/
theorem lor_chain16 (g : Nat → Nat → Nat) :
    g 0 0 ||| g 1 0 <<< 16 ||| g 2 0 <<< 32 ||| g 3 0 <<< 48 |||
      g 0 1 <<< 4 ||| g 1 1 <<< 20 ||| g 2 1 <<< 36 ||| g 3 1 <<< 52 |||
      g 0 2 <<< 8 ||| g 1 2 <<< 24 ||| g 2 2 <<< 40 ||| g 3 2 <<< 56 |||
      g 0 3 <<< 12 ||| g 1 3 <<< 28 ||| g 2 3 <<< 44 ||| g 3 3 <<< 60 =
    g 0 0 ||| g 0 1 <<< 4 ||| g 0 2 <<< 8 ||| g 0 3 <<< 12 |||
      g 1 0 <<< 16 ||| g 1 1 <<< 20 ||| g 1 2 <<< 24 ||| g 1 3 <<< 28 |||
      g 2 0 <<< 32 ||| g 2 1 <<< 36 ||| g 2 2 <<< 40 ||| g 2 3 <<< 44 |||
      g 3 0 <<< 48 ||| g 3 1 <<< 52 ||| g 3 2 <<< 56 ||| g 3 3 <<< 60 := by
  simp only [Nat.lor_assoc]
  simp [Nat.lor_comm, lor_left_comm]

/-- The source's sharp-alpha accumulation never panics on sufficient data
and equals the amended claim's packing: nibble `k` (low-to-high) holds the
quantised alpha of the pixel at column offset `k % 4`, row offset `k / 4`,
clamped to the live surface. -/
theorem sharp_alpha_block_eq_spec (x y w h : Nat) (data : List Nat)
    (hw : 0 < w) (hh : 0 < h) (hlen : w * h * 4 ≤ data.length) :
    sharp_alpha_block x y w h data = some (spec_sharp_alpha x y w h data) := by
  have hr4 : List.range BLOCK_HEIGHT = [0, 1, 2, 3] := rfl
  have hr4b : List.range BLOCK_WIDTH = [0, 1, 2, 3] := rfl
  have hr16 : List.range 16 = [0, 1, 2, 3, 4, 5, 6, 7, 8, 9, 10, 11, 12, 13, 14, 15] :=
    rfl
  unfold sharp_alpha_block spec_sharp_alpha
  rw [hr4, hr4b, hr16]
  simp only [List.foldl,
    sharp_alpha_term_eq x y w h data hw hh hlen, CHANNELS, BLOCK_HEIGHT]
  norm_num
  exact lor_chain16 (fun r c =>
    data[((min (y + r) (h - 1)) * w + min (x + c) (w - 1)) * 4 + 3]?.getD 0 / 17)

/-- C9 (amended): every synthesized BC2 block combines the upper 64 bits of
the corresponding 16-byte BC3 block (the colour half) with an independently
derived alpha word in which each pixel's 8-bit alpha is quantised to 4 bits
(`/ 17`) and packed 4 bits per pixel, 16 pixels per block, in row-major
address order — nibble `k` holds the pixel at column offset `k % 4` and row
offset `k / 4` (transposed from the claim's column-outer address order) —
with edge pixels clamped to the nearest valid pixel and no out-of-bounds
read. -/
theorem c9_bc2_block_synthesis (x y w h : Nat) (data bc3 : List Nat) (bi : Nat)
    (hw : 0 < w) (hh : 0 < h) (hlen : w * h * 4 ≤ data.length)
    (hbc3 : bi * 16 + 16 ≤ bc3.length) :
    encode_bc2_block x y w h data bc3 bi =
      some (((u128_from_le_bytes ((bc3.drop (bi * 16)).take 16) >>> 64) <<< 64) |||
        spec_sharp_alpha x y w h data) := by
  unfold encode_bc2_block
  rw [sharp_alpha_block_eq_spec x y w h data hw hh hlen]
  dsimp only
  rw [if_neg (by omega)]

/-- C9 counterexample: on a 4x4 tile whose only opaque pixel sits at row 0,
column 1, the source packs its nibble at address 1 (row-major), not at
address 4 as the claim's column-outer, row-inner address order would
require: the two packings differ. -/
theorem c9_counterexample :
    sharp_alpha_block 0 0 4 4 ((List.replicate 64 0).set 7 255) ≠
      some (claim_sharp_alpha 0 0 4 4 ((List.replicate 64 0).set 7 255)) := by
  decide

/-- C9 witness: the amended characterisation evaluated on a concrete tile
and a concrete BC3 block. -/
theorem c9_witness :
    encode_bc2_block 0 0 4 4 ((List.replicate 64 0).set 7 255) (List.replicate 16 7) 0 =
      some (((u128_from_le_bytes (((List.replicate 16 7 : List Nat).drop (0 * 16)).take 16)
          >>> 64) <<< 64) |||
        spec_sharp_alpha 0 0 4 4 ((List.replicate 64 0).set 7 255)) :=
  c9_bc2_block_synthesis 0 0 4 4 ((List.replicate 64 0).set 7 255) (List.replicate 16 7) 0
    (by decide) (by decide) (by decide) (by decide)


/-- The downsampled level always holds exactly the new physical pixel
count times 4 bytes. -/
theorem downsample_rgba8_length (nw nh nd pw ph pd : Nat) (src : List Nat) :
    (downsample_rgba8 nw nh nd pw ph pd src).length = nw * nh * nd * 4 := by
  simp [downsample_rgba8]

/-- A virtual mip dimension never exceeds a positive base dimension. -/
theorem mip_dimension_le (w m : Nat) (hw : 0 < w) : mip_dimension w m ≤ w := by
  unfold mip_dimension
  have : w >>> m ≤ w := by
    rw [Nat.shiftRight_eq_div_pow]
    exact Nat.div_le_self w (2 ^ m)
  omega

/-- Virtual mip dimensions are always at least 1. -/
theorem mip_dimension_pos (w m : Nat) : 0 < mip_dimension w m := by
  unfold mip_dimension
  omega

/-- A base dimension of 1 stays 1 at every deeper mip level. -/
theorem mip_dimension_one (m : Nat) (hm : 1 ≤ m) : mip_dimension 1 m = 1 := by
  unfold mip_dimension
  have h2 : 1 < 2 ^ m := by
    have h3 : 2 ^ 1 ≤ 2 ^ m := Nat.pow_le_pow_right (by omega) hm
    omega
  rw [Nat.shiftRight_eq_div_pow, Nat.div_eq_of_lt h2]
  simp

/-- Depth 1 with block depth 1 has physical dimension 1 at every level
below the base. -/
theorem mip_dimension_rounded_one (m : Nat) (hm : 1 ≤ m) :
    mip_dimension_rounded 1 m 1 = 1 := by
  unfold mip_dimension_rounded round_up
  rw [mip_dimension_one m hm]
  rfl

/-- For a block-aligned positive base dimension, the physical mip dimension
never exceeds the base. -/
theorem mip_dimension_rounded_le (w m : Nat) (hw : 0 < w) (hw4 : w % 4 = 0) :
    mip_dimension_rounded w m 4 ≤ w := by
  unfold mip_dimension_rounded round_up
  calc divCeil (mip_dimension w m) 4 * 4
      ≤ divCeil w 4 * 4 := by
        have := divCeil_le_divCeil (mip_dimension w m) w 4 (mip_dimension_le w m hw)
        omega
    _ = w := divCeil_eq_of_mod w 4 (by omega) hw4

/-- Physical mip dimensions are multiples of the block dimension 4. -/
theorem mip_dimension_rounded_mod (w m : Nat) : mip_dimension_rounded w m 4 % 4 = 0 :=
  divCeil_mul_mod _ _

/-- Physical mip dimensions are positive. -/
theorem mip_dimension_rounded_pos (w m : Nat) : 0 < mip_dimension_rounded w m 4 := by
  unfold mip_dimension_rounded round_up
  have h1 : 1 ≤ mip_dimension w m := mip_dimension_pos w m
  have h2 := divCeil_le_divCeil 1 (mip_dimension w m) 4 h1
  have h3 : divCeil 1 4 = 1 := rfl
  omega

/-- Block counts agree whether computed from the virtual or the physical
mip dimension. -/
theorem divCeil_mip_dimension_rounded (w m : Nat) :
    divCeil (mip_dimension_rounded w m 4) 4 = divCeil (mip_dimension w m) 4 := by
  unfold mip_dimension_rounded round_up
  exact divCeil_mul_self _ 4 (by omega)

/-- Encoding a block-aligned BC7 plane with sufficient data succeeds and
produces one 16-byte block per 4x4 tile (with the stubbed external
encoder). -/
theorem encode_rgba8_bc7_ok (w h d : Nat) (data : List Nat) (q : Quality)
    (hw4 : w % 4 = 0) (hh4 : h % 4 = 0) (hbound : w * h * 4 < 2 ^ 64)
    (hlen : w * h * 4 ≤ data.length) :
    encode_rgba8 stub_ext w h d data .bc7Srgb q =
      .ok (List.replicate (divCeil w 4 * divCeil h 4 * 16) 0) := by
  have ha : divCeil w 4 * 4 = w := divCeil_eq_of_mod w 4 (by omega) hw4
  have hb : divCeil h 4 * 4 = h := divCeil_eq_of_mod h 4 (by omega) hh4
  have hab : divCeil w 4 * divCeil h 4 * 64 = w * h * 4 := by
    calc divCeil w 4 * divCeil h 4 * 64
        = divCeil w 4 * 4 * (divCeil h 4 * 4) * 4 := by ring
      _ = w * h * 4 := by rw [ha, hb]
  have hms : mip_size w h 1 BLOCK_WIDTH BLOCK_HEIGHT 1 ELEMENTS_PER_BLOCK =
      some (divCeil w 4 * divCeil h 4 * 64) := by
    rw [mip_size_bcn_eq, if_pos (by omega)]
  show bcn_from_rgba8 (stub_ext .bc7Srgb q) w h d data = _
  unfold bcn_from_rgba8
  rw [encode_bcn_of_some (stub_ext .bc7Srgb q) w h _ data hms, if_neg (by omega)]
  rfl


/-- Reindexing a summed range by one. -/
theorem map_sum_shift (F : Nat → Nat) (m r : Nat) :
    ((List.range r).map (fun i => F (m + (i + 1)))).sum =
      ((List.range r).map (fun i => F (m + 1 + i))).sum := by
  apply congrArg
  apply List.map_congr_left
  intro a _
  rw [show m + (a + 1) = m + 1 + a from by omega]

/-- The generated-mip loop on a depth-1, block-aligned BC7 surface always
succeeds, and level `mipmap + i` contributes
`ceil(virtual_w/4) * ceil(virtual_h/4)` 16-byte blocks. -/
theorem mip_loop_generated_bc7 (s : SurfaceRgba8) (q : Quality) (layer : Nat)
    (hd : s.depth = 1) (hw4 : s.width % 4 = 0) (hh4 : s.height % 4 = 0)
    (hw : 0 < s.width) (hh : 0 < s.height) (hbound : s.width * s.height * 4 < 2 ^ 64) :
    ∀ (remaining mipmap : Nat) (img : List Nat) (pw ph pd : Nat), 1 ≤ mipmap →
      ∃ bytes,
        mip_loop stub_ext s .bc7Srgb q false layer remaining mipmap img pw ph pd =
          .ok bytes ∧
        bytes.length = ((List.range remaining).map (fun i =>
          divCeil (mip_dimension s.width (mipmap + i)) 4 *
            divCeil (mip_dimension s.height (mipmap + i)) 4 * 16)).sum := by
  intro remaining
  induction remaining with
  | zero =>
    intro mipmap img pw ph pd hm
    exact ⟨[], rfl, by simp⟩
  | succ r ih =>
    intro mipmap img pw ph pd hm
    have hmd : mip_dimension_rounded s.depth mipmap 1 = 1 := by
      rw [hd]
      exact mip_dimension_rounded_one mipmap hm
    have heq : mip_loop stub_ext s .bc7Srgb q false layer (r + 1) mipmap img pw ph pd =
        match encode_rgba8 stub_ext (mip_dimension_rounded s.width mipmap 4)
            (mip_dimension_rounded s.height mipmap 4)
            (mip_dimension_rounded s.depth mipmap 1)
            (downsample_rgba8 (mip_dimension_rounded s.width mipmap 4)
              (mip_dimension_rounded s.height mipmap 4)
              (mip_dimension_rounded s.depth mipmap 1) pw ph pd img) .bc7Srgb q with
        | .error e => .error (.surface e)
        | .ok mipData =>
          match mip_loop stub_ext s .bc7Srgb q false layer r (mipmap + 1)
              (downsample_rgba8 (mip_dimension_rounded s.width mipmap 4)
                (mip_dimension_rounded s.height mipmap 4)
                (mip_dimension_rounded s.depth mipmap 1) pw ph pd img)
              (mip_dimension_rounded s.width mipmap 4)
              (mip_dimension_rounded s.height mipmap 4)
              (mip_dimension_rounded s.depth mipmap 1) with
          | .error e => .error e
          | .ok rest => .ok (mipData ++ rest) := rfl
    rw [hmd] at heq
    have hMWle := mip_dimension_rounded_le s.width mipmap hw hw4
    have hMHle := mip_dimension_rounded_le s.height mipmap hh hh4
    have hbound2 : mip_dimension_rounded s.width mipmap 4 *
        mip_dimension_rounded s.height mipmap 4 * 4 < 2 ^ 64 := by
      have h1 : mip_dimension_rounded s.width mipmap 4 *
          mip_dimension_rounded s.height mipmap 4 ≤ s.width * s.height :=
        Nat.mul_le_mul hMWle hMHle
      omega
    have hlen2 : mip_dimension_rounded s.width mipmap 4 *
        mip_dimension_rounded s.height mipmap 4 * 4 ≤
        (downsample_rgba8 (mip_dimension_rounded s.width mipmap 4)
          (mip_dimension_rounded s.height mipmap 4) 1 pw ph pd img).length := by
      rw [downsample_rgba8_length]
      omega
    have hencode := encode_rgba8_bc7_ok (mip_dimension_rounded s.width mipmap 4)
      (mip_dimension_rounded s.height mipmap 4) 1
      (downsample_rgba8 (mip_dimension_rounded s.width mipmap 4)
        (mip_dimension_rounded s.height mipmap 4) 1 pw ph pd img) q
      (mip_dimension_rounded_mod s.width mipmap) (mip_dimension_rounded_mod s.height mipmap)
      hbound2 hlen2
    obtain ⟨rest, hrest, hrestlen⟩ := ih (mipmap + 1)
      (downsample_rgba8 (mip_dimension_rounded s.width mipmap 4)
        (mip_dimension_rounded s.height mipmap 4) 1 pw ph pd img)
      (mip_dimension_rounded s.width mipmap 4)
      (mip_dimension_rounded s.height mipmap 4) 1 (by omega)
    refine ⟨List.replicate (divCeil (mip_dimension_rounded s.width mipmap 4) 4 *
        divCeil (mip_dimension_rounded s.height mipmap 4) 4 * 16) 0 ++ rest, ?_, ?_⟩
    · rw [heq, hencode, hrest]
    · simp only [List.length_append, List.length_replicate, hrestlen,
        divCeil_mip_dimension_rounded]
      rw [List.range_succ_eq_map]
      simp only [List.map_cons, List.map_map, List.sum_cons, Nat.add_zero,
        Function.comp_def]
      congr 1
      exact (map_sum_shift (fun mIdx => divCeil (mip_dimension s.width mIdx) 4 *
        divCeil (mip_dimension s.height mIdx) 4 * 16) mipmap r).symm


set_option maxRecDepth 40000 in
set_option maxHeartbeats 4000000 in
/-- C6: encodes with mip dimensions not divisible by the block dimension
still succeed, each level producing `ceil(w/4) * ceil(h/4)` 16-byte blocks
of its virtual dimensions; in particular a 12x12 BC7 surface over 4
generated levels yields `(9 + 4 + 1 + 1) * 16 = 240` bytes. -/
theorem c6_block_counts :
    (∀ (w h n : Nat) (q : Quality) (data : List Nat),
      w % 4 = 0 → h % 4 = 0 → 0 < w → 0 < h → w * h * 4 < 2 ^ 64 →
      w * h * 4 ≤ data.length →
      ∃ out,
        encode_surface_rgba8 stub_ext ⟨w, h, 1, 1, 1, data⟩ .bc7Srgb q
          (.generatedExact n) = .ok out ∧
        out.data.length = divCeil w 4 * divCeil h 4 * 16 +
          ((List.range (n - 1)).map (fun i =>
            divCeil (mip_dimension w (1 + i)) 4 * divCeil (mip_dimension h (1 + i)) 4 *
              16)).sum) ∧
    encode_surface_rgba8 stub_ext ⟨12, 12, 1, 1, 1, List.replicate 576 0⟩ .bc7Srgb .fast
        .generatedAutomatic =
      .ok ⟨12, 12, 1, 1, 4, .bc7Srgb, List.replicate ((9 + 4 + 1 + 1) * 16) 0⟩ := by
  constructor
  · intro w h n q data hw4 hh4 hw hh hbound hdata
    have hwge4 : 4 ≤ w := by omega
    have hhge4 : 4 ≤ h := by omega
    have hbase := encode_rgba8_bc7_ok w h 1 data q hw4 hh4 hbound hdata
    obtain ⟨rest, hrest, hrestlen⟩ := mip_loop_generated_bc7 ⟨w, h, 1, 1, 1, data⟩ q 0
      rfl hw4 hh4 hw hh hbound (n - 1) 1 data w h 1 (by omega)
    have hmip : encode_mipmaps_rgba8 stub_ext ⟨w, h, 1, 1, 1, data⟩ .bc7Srgb q n false 0 =
        .ok (List.replicate (divCeil w 4 * divCeil h 4 * 16) 0 ++ rest) := by
      unfold encode_mipmaps_rgba8
      dsimp only [ImageFormat.block_dimensions]
      rw [show max w 4 = w from by omega, show max h 4 = h from by omega,
        show max 1 1 = 1 from rfl, hbase, hrest]
    have hlayers : encode_layers stub_ext ⟨w, h, 1, 1, 1, data⟩ .bc7Srgb q n false 1 =
        .ok (List.replicate (divCeil w 4 * divCeil h 4 * 16) 0 ++ rest) := by
      show (match encode_layers stub_ext ⟨w, h, 1, 1, 1, data⟩ .bc7Srgb q n false 0 with
        | .error e => (.error e : Except RtError (List Nat))
        | .ok acc =>
          match encode_mipmaps_rgba8 stub_ext ⟨w, h, 1, 1, 1, data⟩ .bc7Srgb q n false 0 with
          | .error e => .error e
          | .ok cur => .ok (acc ++ cur)) = _
      rw [show encode_layers stub_ext ⟨w, h, 1, 1, 1, data⟩ .bc7Srgb q n false 0 =
        .ok [] from rfl, hmip]
      rfl
    have hval : validate_encode ⟨w, h, 1, 1, 1, data⟩ .bc7Srgb = .ok () := by
      unfold validate_encode
      dsimp only [ImageFormat.block_dimensions]
      rw [if_neg (by omega), if_neg (by omega)]
    refine ⟨⟨w, h, 1, 1, n, .bc7Srgb,
      List.replicate (divCeil w 4 * divCeil h 4 * 16) 0 ++ rest⟩, ?_, ?_⟩
    · unfold encode_surface_rgba8
      rw [hval]
      dsimp only [mip_count]
      rw [show (Mipmaps.generatedExact n == Mipmaps.fromSurface) = false from rfl]
      rw [hlayers]
    · simp only [List.length_append, List.length_replicate, hrestlen]
  · have h4 : mip_count .generatedAutomatic ⟨12, 12, 1, 1, 1, List.replicate 576 0⟩ = 4 := by
      simp [mip_count, max_mipmap_count, Nat.log2]
    unfold encode_surface_rgba8
    rw [show validate_encode ⟨12, 12, 1, 1, 1, List.replicate 576 0⟩ .bc7Srgb =
      .ok () from rfl]
    dsimp only
    rw [h4, show (Mipmaps.generatedAutomatic == Mipmaps.fromSurface) = false from rfl]
    rfl


set_option maxRecDepth 40000 in
/-- C6 witness: the general block-count theorem instantiated at the 12x12
surface with 4 exact generated levels gives 240 output bytes. -/
theorem c6_witness :
    ok_data_length (encode_surface_rgba8 stub_ext ⟨12, 12, 1, 1, 1, List.replicate 576 0⟩
      .bc7Srgb .fast (.generatedExact 4)) = some 240 := by
  obtain ⟨out, hok, hlen⟩ := c6_block_counts.1 12 12 4 .fast (List.replicate 576 0)
    (by decide) (by decide) (by decide) (by decide) (by norm_num) (by decide)
  rw [hok]
  show some out.data.length = some 240
  rw [hlen]
  decide

end ImageDds
